import Mathlib

/-!
Verification development for the CRM lead console frontend.

The definitions below are a shallow embedding of the TypeScript sources
(`src/frontend/src/lib/leads.ts`, `src/frontend/src/lib/dates.ts`, the
dashboard page's bulk-send handler and the conversation panel's send
handler).  JavaScript numbers are modelled as `Int` (all numeric values
exercised by the program's filters are integers), `undefined`/`null`/string
values stored in the schema-less `crm_raw` payload are modelled by the
`JsValue` type, and date strings are modelled by their `parseISO` result
(`DateStr`): a parseable ISO string is identified with its epoch-millisecond
instant, and unparseable strings are split into the empty string (falsy in
JS, so `ensureDate` returns `null` for it) and non-empty garbage (for which
`parseISO` returns an `Invalid Date` object, which is truthy).
Fallible code (date-fns `format` throws a `RangeError` on an invalid date)
is modelled with `Option`, `none` standing for the thrown exception.
-/

namespace CrmBot

/-- A JavaScript value as stored in a lead's `crm_raw` record.  Finite
numbers are modelled as `Int`; `vNaN` stands for any non-finite number.
Objects and arrays never flow into the numeric/label accessors of the
source and are omitted. -/
inductive JsValue where
  | vUndef
  | vNull
  | vNum (n : Int)
  | vNaN
  | vStr (s : String)
  | vBool (b : Bool)
  deriving DecidableEq, Repr

/-- Digit-string to number, helper for `jsStrToNum`. -/
def parseDigits (cs : List Char) : Option Nat :=
  match cs with
  | [] => none
  | _ =>
    if cs.all Char.isDigit then
      some (cs.foldl (fun acc c => acc * 10 + (c.toNat - 48)) 0)
    else none

/-- JavaScript `Number(string)` conversion, restricted to the integer
fragment of the JS numeric-literal grammar (optional sign and decimal
digits; a whitespace-only string converts to `0`).  `none` models `NaN`. -/
def jsStrToNum (s : String) : Option Int :=
  let t := s.trim
  if t = "" then some 0
  else
    match t.data with
    | '-' :: rest => (parseDigits rest).map (fun n => -(n : Int))
    | '+' :: rest => (parseDigits rest).map (fun n => (n : Int))
    | cs => (parseDigits cs).map (fun n => (n : Int))

/-- The source's `toNumber`: `null`, `undefined` and the empty string map to
`undefined`; otherwise `Number(value)` is taken and non-finite results are
discarded.  `none` models `undefined`. -/
def toNumber : JsValue → Option Int
  | .vNull => none
  | .vUndef => none
  | .vNaN => none
  | .vNum n => some n
  | .vStr s => if s = "" then none else jsStrToNum s
  | .vBool b => some (if b then 1 else 0)

/-- JavaScript truthiness (`Boolean(value)`). -/
def jsTruthy : JsValue → Bool
  | .vNull => false
  | .vUndef => false
  | .vNaN => false
  | .vNum n => n != 0
  | .vStr s => s != ""
  | .vBool b => b

/-- The keys of `crm_raw` that the source ever reads, each an arbitrary
JS value (`vUndef` models an absent key). -/
structure CrmRaw where
  property_type : JsValue := .vUndef
  region_obj_id : JsValue := .vUndef
  zone_id : JsValue := .vUndef
  rooms : JsValue := .vUndef
  for_sale : JsValue := .vUndef
  for_rent : JsValue := .vUndef
  price_sale : JsValue := .vUndef
  price_rent : JsValue := .vUndef
  region_name : JsValue := .vUndef
  region : JsValue := .vUndef
  county : JsValue := .vUndef
  zone_name : JsValue := .vUndef
  zone : JsValue := .vUndef
  deriving DecidableEq, Repr

/-- A date string, modelled by its `parseISO` outcome: `valid ms` is a
string parsing to the instant `ms` (epoch milliseconds), `emptyStr` is `""`
(falsy, so `ensureDate` short-circuits to `null`), `garbage` is any other
unparseable string (`parseISO` yields a truthy `Invalid Date`, `getTime()`
is `NaN`). -/
inductive DateStr where
  | valid (ms : Int)
  | emptyStr
  | garbage
  deriving DecidableEq, Repr

/-- The `getTime()` of the parsed date; `none` models `NaN`. -/
def DateStr.getTime : DateStr → Option Int
  | .valid ms => some ms
  | .emptyStr => none
  | .garbage => none

/-- A lead, restricted to the fields read by the embedded functions. -/
structure Lead where
  property_id : String
  display_id : String := ""
  date_added : DateStr
  crm_raw : CrmRaw := {}
  deriving DecidableEq, Repr

/-- The `rooms` filter: `"all" | "1" | "2" | "3" | "4" | "5+"`. -/
inductive RoomsFilter where
  | all
  | one
  | two
  | three
  | four
  | fivePlus
  deriving DecidableEq, Repr

/-- `Number(filters.rooms)` for the exact-count selections. -/
def roomsValue : RoomsFilter → Int
  | .one => 1
  | .two => 2
  | .three => 3
  | .four => 4
  | .fivePlus => 5
  | .all => 0

/-- The `transaction` component of a filter specification. -/
structure Transaction where
  sale : Bool
  rent : Bool
  deriving DecidableEq, Repr

/-- The filter specification (`LeadFilters` in `leads.ts`).  `dateFrom` /
`dateTo` are modelled by the instant of the `T00:00:00` (resp. `T23:59:59`)
boundary the source builds from the calendar-date string; `none` covers an
unset or empty (falsy) date input. -/
structure LeadFilters where
  propertyTypes : List Int
  regionId : Option Int := none
  zoneId : Option Int := none
  transaction : Transaction
  rooms : RoomsFilter
  minBudget : Option Int := none
  maxBudget : Option Int := none
  dateFrom : Option Int := none
  dateTo : Option Int := none
  deriving DecidableEq, Repr

/-- `DEFAULT_LEAD_FILTERS` from `leads.ts`. -/
def DEFAULT_LEAD_FILTERS : LeadFilters :=
  { propertyTypes := []
    transaction := { sale := false, rent := false }
    rooms := .all }

/-- Property-type clause of `applyLeadFilters` (`!propType ||
!filters.propertyTypes.includes(propType)` fails the lead; note `!propType`
is JS falsiness, so a numeric `0` also fails). -/
def propertyTypePass (f : LeadFilters) (raw : CrmRaw) : Bool :=
  if f.propertyTypes.length > 0 then
    match toNumber raw.property_type with
    | none => false
    | some p => if p = 0 then false else f.propertyTypes.contains p
  else true

/-- Region clause of `applyLeadFilters` (`!regionId || regionId !==
filters.regionId` fails the lead; `!regionId` is JS falsiness, so a numeric
`0` also fails). -/
def regionPass (f : LeadFilters) (raw : CrmRaw) : Bool :=
  match f.regionId with
  | none => true
  | some rid =>
    match toNumber raw.region_obj_id with
    | none => false
    | some r => if r = 0 then false else decide (r = rid)

/-- Zone clause of `applyLeadFilters`, same shape as the region clause. -/
def zonePass (f : LeadFilters) (raw : CrmRaw) : Bool :=
  match f.zoneId with
  | none => true
  | some zid =>
    match toNumber raw.zone_id with
    | none => false
    | some z => if z = 0 then false else decide (z = zid)

/-- Transaction clause of `applyLeadFilters`. -/
def transactionPass (f : LeadFilters) (raw : CrmRaw) : Bool :=
  if f.transaction.sale || f.transaction.rent then
    let isSale := jsTruthy raw.for_sale
    let isRent := jsTruthy raw.for_rent
    if f.transaction.sale && !f.transaction.rent && !isSale then false
    else if !f.transaction.sale && f.transaction.rent && !isRent then false
    else if f.transaction.sale && f.transaction.rent && !isSale && !isRent then false
    else true
  else true

/-- Rooms clause of `applyLeadFilters`. -/
def roomsPass (f : LeadFilters) (raw : CrmRaw) : Bool :=
  match f.rooms with
  | .all => true
  | .fivePlus =>
    match toNumber raw.rooms with
    | none => false
    | some n => decide (5 ≤ n)
  | rsel =>
    match toNumber raw.rooms with
    | none => false
    | some n => decide (n = roomsValue rsel)

/-- The `withinRange` closure of the budget clause. -/
def withinRange (minB maxB : Option Int) (price : Option Int) : Bool :=
  match price with
  | none => false
  | some p =>
    (match minB with
      | none => true
      | some m => decide (m ≤ p)) &&
    (match maxB with
      | none => true
      | some m => decide (p ≤ m))

/-- Budget clause of `applyLeadFilters`. -/
def budgetPass (f : LeadFilters) (raw : CrmRaw) : Bool :=
  if f.minBudget.isSome || f.maxBudget.isSome then
    let priceSale := toNumber raw.price_sale
    let priceRent := toNumber raw.price_rent
    if f.transaction.sale && !f.transaction.rent then
      withinRange f.minBudget f.maxBudget priceSale
    else if !f.transaction.sale && f.transaction.rent then
      withinRange f.minBudget f.maxBudget priceRent
    else if f.transaction.sale && f.transaction.rent then
      withinRange f.minBudget f.maxBudget priceSale ||
        withinRange f.minBudget f.maxBudget priceRent
    else
      withinRange f.minBudget f.maxBudget priceSale ||
        withinRange f.minBudget f.maxBudget priceRent
  else true

/-- Date-range clause of `applyLeadFilters` (an unparseable `date_added`
fails the whole clause). -/
def datePass (f : LeadFilters) (d : DateStr) : Bool :=
  if f.dateFrom.isSome || f.dateTo.isSome then
    match d.getTime with
    | none => false
    | some t =>
      (match f.dateFrom with
        | none => true
        | some fromMs => decide (fromMs ≤ t)) &&
      (match f.dateTo with
        | none => true
        | some toMs => decide (t ≤ toMs))
  else true

/-- The filter predicate of `applyLeadFilters`: the conjunction of the
seven clauses, in source order. -/
def leadMatches (f : LeadFilters) (lead : Lead) : Bool :=
  propertyTypePass f lead.crm_raw && regionPass f lead.crm_raw &&
    zonePass f lead.crm_raw && transactionPass f lead.crm_raw &&
    roomsPass f lead.crm_raw && budgetPass f lead.crm_raw &&
    datePass f lead.date_added

/-- `applyLeadFilters` from `leads.ts` (the `!leads.length` early return
included). -/
def applyLeadFilters (leads : List Lead) (f : LeadFilters) : List Lead :=
  if leads.length = 0 then leads
  else leads.filter (leadMatches f)

/-! Dates and grouping (`dates.ts` / `leads.ts`).  Calendar computations
(`differenceInCalendarDays`, `isSameYear`) are modelled on the UTC
calendar: a calendar day is the floor of the instant over 86,400,000 ms,
and the Gregorian year of a day index is computed with the standard
civil-from-days algorithm. -/

def msPerDay : Int := 86400000

/-- The calendar day (days since 1970-01-01) containing an instant
(`Int` division is floor division for a positive divisor). -/
def calendarDay (ms : Int) : Int := ms / msPerDay

/-- Gregorian year of a day index (days since 1970-01-01), by the
standard civil-from-days computation. -/
def yearOfDay (z0 : Int) : Int :=
  let z := z0 + 719468
  let era := z / 146097
  let doe := z - era * 146097
  let yoe := (doe - doe / 1460 + doe / 36524 - doe / 146096) / 365
  let y := yoe + era * 400
  let doy := doe - (365 * yoe + yoe / 4 - yoe / 100)
  let mp := (5 * doy + 2) / 153
  if 10 ≤ mp then y + 1 else y

/-- A day header produced by `formatDayHeader`.  The date-fns string
renderings are modelled by constructors: `"Today"`, `"Yesterday"`, the
`d MMM` / `d MMM yyyy` patterns (which, for a fixed current date, render
distinct calendar days to distinct strings — the constructor carries the
calendar day and the `isSameYear` flag selecting the pattern), and the
literal `"Unknown date"`. -/
inductive DayLabel where
  | today
  | yesterday
  | day (d : Int) (sameYear : Bool)
  | unknown
  deriving DecidableEq, Repr

/-- The label of a valid instant, relative to the current instant
`todayMs` (the source's module-level `TODAY`). -/
def dayLabel (todayMs : Int) (ms : Int) : DayLabel :=
  let diff := calendarDay todayMs - calendarDay ms
  if diff = 0 then .today
  else if diff = 1 then .yesterday
  else .day (calendarDay ms) (yearOfDay (calendarDay ms) = yearOfDay (calendarDay todayMs))

/-- `formatDayHeader` from `dates.ts`.  The empty string is falsy, so
`ensureDate` returns `null` and the header is `"Unknown date"`; any other
unparseable string gives a truthy `Invalid Date` (`parseISO` never throws,
the `catch` in `ensureDate` is dead code), both calendar-day differences
are `NaN` (`≠ 0, 1`), and date-fns `format` then throws
`RangeError("Invalid time value")` — modelled by `none`. -/
def formatDayHeader (todayMs : Int) : DateStr → Option DayLabel
  | .emptyStr => some .unknown
  | .garbage => none
  | .valid ms => some (dayLabel todayMs ms)

/-- Stable insertion into a list sorted by `le` (the element is placed
before the first entry `y` with `le x y`). -/
def orderedInsertB (le : α → α → Bool) (x : α) : List α → List α
  | [] => [x]
  | y :: ys => if le x y then x :: y :: ys else y :: orderedInsertB le x ys

/-- Stable insertion sort by `le`; for a consistent JS comparator `c`,
`Array.prototype.sort(c)` produces exactly this list with
`le a b := c(a, b) ≤ 0`. -/
def insertionSortB (le : α → α → Bool) : List α → List α
  | [] => []
  | x :: xs => orderedInsertB le x (insertionSortB le xs)

/-- The comparator of `groupByDateAdded`'s sort, as an `≤ 0` test:
`(b, a) ↦ parseISO(b).getTime() - parseISO(a).getTime()` orders by
descending instant; when either `getTime()` is `NaN` the comparator
returns `NaN`, which `SortCompare` treats as `+0` (a tie). -/
def leadLe (a b : Lead) : Bool :=
  match a.date_added.getTime, b.date_added.getTime with
  | some ta, some tb => decide (tb ≤ ta)
  | _, _ => true

/-- The `[...leads].sort(...)` step of `groupByDateAdded`. -/
def sortLeadsByDateAdded (leads : List Lead) : List Lead :=
  insertionSortB leadLe leads

/-- A labeled display bucket (`LeadGroup` in `leads.ts`). -/
structure LeadGroup where
  label : DayLabel
  leads : List Lead
  deriving DecidableEq, Repr

/-- One step of the `Map<string, Lead[]>` bucket fold: append to the
existing entry with this label, else push a new entry at the back
(JS `Map` preserves insertion order). -/
def insertLead (lab : DayLabel) (x : Lead) :
    List (DayLabel × List Lead) → List (DayLabel × List Lead)
  | [] => [(lab, [x])]
  | (k, ys) :: rest =>
    if k = lab then (k, ys ++ [x]) :: rest
    else (k, ys) :: insertLead lab x rest

/-- The bucket-building loop of `groupByDateAdded`; `none` when a label
computation throws. -/
def buildGroupsAux (todayMs : Int) (acc : List (DayLabel × List Lead)) :
    List Lead → Option (List (DayLabel × List Lead))
  | [] => some acc
  | x :: xs =>
    match formatDayHeader todayMs x.date_added with
    | none => none
    | some lab => buildGroupsAux todayMs (insertLead lab x acc) xs

/-- `groupByDateAdded` from `leads.ts`: sort descending by `date_added`
instant, then bucket by day header in first-encounter order. -/
def groupByDateAdded (todayMs : Int) (leads : List Lead) : Option (List LeadGroup) :=
  (buildGroupsAux todayMs [] (sortLeadsByDateAdded leads)).map
    (List.map (fun e => { label := e.1, leads := e.2 }))

/-- The instant of a lead with a parsing `date_added` (defaulting to 0;
only used under the hypothesis that the date parses). -/
def leadTime (l : Lead) : Int := l.date_added.getTime.getD 0

/-- A well-formed bucket: non-empty, led by its most recent member, all
members dated, on the same calendar day, and labeled by that day. -/
def GroupOK (todayMs : Int) (g : DayLabel × List Lead) : Prop :=
  ∃ f rest, g.2 = f :: rest ∧
    g.1 = dayLabel todayMs (leadTime f) ∧
    (∀ y ∈ g.2, y.date_added.getTime = some (leadTime y)) ∧
    (∀ y ∈ g.2, calendarDay (leadTime y) = calendarDay (leadTime f)) ∧
    (∀ y ∈ g.2, leadTime y ≤ leadTime f)

/-- Buckets in strictly descending calendar-day order, member-wise. -/
def GroupsDesc (gs : List (DayLabel × List Lead)) : Prop :=
  gs.Pairwise (fun g1 g2 => ∀ x ∈ g1.2, ∀ y ∈ g2.2,
    calendarDay (leadTime y) < calendarDay (leadTime x))

/-- Invariant of the bucket fold's accumulator. -/
def AccInv (todayMs : Int) (gs : List (DayLabel × List Lead)) : Prop :=
  (∀ g ∈ gs, GroupOK todayMs g) ∧ GroupsDesc gs

/-- Every still-unprocessed lead is no newer than every accumulated one. -/
def Cross (xs : List Lead) (gs : List (DayLabel × List Lead)) : Prop :=
  ∀ x ∈ xs, ∀ g ∈ gs, ∀ y ∈ g.2, leadTime x ≤ leadTime y

/-! Facet derivation (`deriveFilterOptions` in `leads.ts`). -/

/-- A selectable facet value (`OptionItem` in `leads.ts`). -/
structure OptionItem where
  value : Int
  label : String
  deriving DecidableEq, Repr

/-- The static property-type catalog (`PROPERTY_TYPE_OPTIONS`). -/
def PROPERTY_TYPE_OPTIONS : List OptionItem :=
  [⟨1, "Apartament"⟩, ⟨2, "Casă / Vilă"⟩, ⟨3, "Teren"⟩,
    ⟨4, "Spațiu de birouri"⟩, ⟨5, "Spațiu comercial"⟩,
    ⟨6, "Spațiu industrial"⟩, ⟨7, "Hotel / Pensiune"⟩,
    ⟨8, "Proprietate specială"⟩]

/-- `extractLabel`: the first candidate value that is a string with
non-blank trim (the untrimmed string is returned). -/
def extractLabel : List JsValue → Option String
  | [] => none
  | v :: rest =>
    match v with
    | .vStr s => if s.trim.length > 0 then some s else extractLabel rest
    | _ => extractLabel rest

/-- The region label the scan computes for a lead with numeric region id
`rid`: the first textual candidate, else the synthesized placeholder. -/
def regionLabelOf (raw : CrmRaw) (rid : Int) : String :=
  (extractLabel [raw.region_name, raw.region, raw.county]).getD
    ("Județ #" ++ toString rid)

/-- The zone label the scan computes for a lead with numeric zone id. -/
def zoneLabelOf (raw : CrmRaw) (zid : Int) : String :=
  (extractLabel [raw.zone_name, raw.zone]).getD ("Zonă #" ++ toString zid)

/-- JS `Set.add` on an insertion-ordered list (only membership is ever
queried). -/
def insertSet (v : Int) (s : List Int) : List Int :=
  if s.contains v then s else s ++ [v]

/-- The guarded `if (!map.has(id)) map.set(id, label)` step: the first
label seen for an id wins. -/
def insertMap (k : Int) (lab : String) (m : List (Int × String)) :
    List (Int × String) :=
  if m.any (fun e => e.1 = k) then m else m ++ [(k, lab)]

/-- The accumulator of the facet scan. -/
structure FacetState where
  propertyTypeSet : List Int
  regionMap : List (Int × String)
  zoneMap : List (Int × String)
  deriving DecidableEq, Repr

/-- One lead's contribution to the facet scan. -/
def facetStep (st : FacetState) (lead : Lead) : FacetState :=
  let raw := lead.crm_raw
  let st1 :=
    match toNumber raw.property_type with
    | some p => { st with propertyTypeSet := insertSet p st.propertyTypeSet }
    | none => st
  let st2 :=
    match toNumber raw.region_obj_id with
    | some rid =>
      { st1 with regionMap := insertMap rid (regionLabelOf raw rid) st1.regionMap }
    | none => st1
  match toNumber raw.zone_id with
  | some zid =>
    { st2 with zoneMap := insertMap zid (zoneLabelOf raw zid) st2.zoneMap }
  | none => st2

/-- The `leads.forEach` scan of `deriveFilterOptions`. -/
def facetScan (leads : List Lead) : FacetState :=
  leads.foldl facetStep { propertyTypeSet := [], regionMap := [], zoneMap := [] }

/-- Model of the default `localeCompare` label ordering as an `≤ 0` test:
case-insensitive (lower-cased lexicographic) comparison, with a
case-insensitive tie broken lower-case first, approximating the default
ICU collation (`"a".localeCompare("A") < 0`). -/
def labelLe (a b : String) : Bool :=
  if a.toLower = b.toLower then decide (b ≤ a) else decide (a.toLower ≤ b.toLower)

/-- `mapToOptions`: map entries sorted by label. -/
def mapToOptions (m : List (Int × String)) : List OptionItem :=
  (insertionSortB (fun a b => labelLe a.2 b.2) m).map
    (fun e => { value := e.1, label := e.2 })

/-- The derived facets (`FilterOptions` in `leads.ts`). -/
structure FilterOptions where
  propertyTypes : List OptionItem
  regions : List OptionItem
  zones : List OptionItem
  deriving DecidableEq, Repr

/-- `deriveFilterOptions` from `leads.ts`. -/
def deriveFilterOptions (leads : List Lead) : FilterOptions :=
  let st := facetScan leads
  { propertyTypes :=
      if st.propertyTypeSet.length = 0 then PROPERTY_TYPE_OPTIONS
      else PROPERTY_TYPE_OPTIONS.filter (fun o => st.propertyTypeSet.contains o.value)
    regions := mapToOptions st.regionMap
    zones := mapToOptions st.zoneMap }

/-! The dashboard page's bulk-send coordinator (`handleBulkSend`).  The
asynchronous sends are modelled by an oracle `sendSucceeds` giving each
attempted id's outcome; the observable network activity is recorded as an
effect trace. -/

/-- The client-only dashboard state touched by `handleBulkSend`. -/
structure DashState where
  selectedIds : List String
  pendingIds : List String
  multiSelectMode : Bool
  deriving DecidableEq, Repr

/-- A network effect of the bulk send. -/
inductive BulkEffect where
  | send (id : String)
  | refresh
  deriving DecidableEq, Repr

/-- The banner reported after a bulk send: error tone plus the two counts
(`Sent N messages, M failed.` when `M ≠ 0`, a success banner otherwise). -/
structure BulkBanner where
  isError : Bool
  sent : Nat
  failed : Nat
  deriving DecidableEq, Repr

/-- The result of one `handleBulkSend` run. -/
structure BulkResult where
  state : DashState
  successCount : Nat
  failureCount : Nat
  banner : Option BulkBanner
  effects : List BulkEffect
  deriving DecidableEq, Repr

/-- One iteration of `handleBulkSend`'s `for` loop: the per-id
`try`/`catch` around `sendWhatsApp(id)` bumps one of the two counters and
records the attempt; a failure never aborts the remaining attempts. -/
def bulkStep (sendSucceeds : String → Bool) (acc : Nat × Nat × List BulkEffect)
    (id : String) : Nat × Nat × List BulkEffect :=
  if sendSucceeds id then (acc.1 + 1, acc.2.1, acc.2.2 ++ [BulkEffect.send id])
  else (acc.1, acc.2.1 + 1, acc.2.2 ++ [BulkEffect.send id])

/-- `handleBulkSend` from the dashboard page: early return on an empty
selection; otherwise every selected id is first added to the pending set
(that intermediate state is overwritten by the final `new Set()` and is
not part of the observable result), each id is attempted sequentially,
one refresh (`mutate`) is issued iff some attempt succeeded, and the
pending set, the selection and multi-select mode are cleared
unconditionally before the banner is set. -/
def handleBulkSend (st : DashState) (sendSucceeds : String → Bool) : BulkResult :=
  if st.selectedIds.length = 0 then
    { state := st, successCount := 0, failureCount := 0, banner := none, effects := [] }
  else
    let ids := st.selectedIds
    let r := ids.foldl (bulkStep sendSucceeds) (0, 0, [])
    let effects := if r.1 > 0 then r.2.2 ++ [BulkEffect.refresh] else r.2.2
    { state := { st with pendingIds := [], selectedIds := [], multiSelectMode := false }
      successCount := r.1
      failureCount := r.2.1
      banner := some { isError := r.2.1 != 0, sent := r.1, failed := r.2.1 }
      effects := effects }

/-! The conversation panel (`ConversationPanel`): reply sending and the
message-stream polling guard. -/

/-- A conversation message (`ConversationMessage` in `types/leads.ts`);
`inbound` models the `direction` enum. -/
structure ConversationMessage where
  id : Option String := none
  inbound : Bool := true
  message : String := ""
  timestamp : DateStr := .emptyStr
  deriving DecidableEq, Repr

/-- The panel state touched by `handleSend`: the draft, the inline send
error, and the displayed message list (owned by the SWR cache; the
handler never writes it directly). -/
structure PanelState where
  draft : String
  sendError : Option String
  messages : List ConversationMessage
  deriving DecidableEq, Repr

/-- JavaScript `String.prototype.trim()`: strip leading and trailing
whitespace (kernel-computable model of the library trim). -/
def jsTrim (s : String) : String :=
  ⟨((s.data.dropWhile Char.isWhitespace).reverse.dropWhile
      Char.isWhitespace).reverse⟩

/-- A network effect of the reply send. -/
inductive PanelEffect where
  | sendReply (text : String)
  | refreshMessages
  | refreshLeads
  deriving DecidableEq, Repr

/-- `handleSend` from `ConversationPanel`: no-op on a blank draft
(`!trimmed`); otherwise the previous send error is cleared before the
network call, and on success the draft is cleared and both a
message-stream refresh (`mutate`) and a lead-list refresh
(`onRefreshLeads`) are issued, while on failure only the error is set.
The send outcome is a parameter; the first returned state is the one
visible while the send is in flight (after the synchronous prefix), the
second is the final state. -/
def handleSend (st : PanelState) (result : Except String Unit) :
    PanelState × PanelState × List PanelEffect :=
  let trimmed := jsTrim st.draft
  if trimmed = "" then (st, st, [])
  else
    let inflight := { st with sendError := none }
    match result with
    | .ok _ =>
      (inflight, { inflight with draft := "" },
        [.sendReply trimmed, .refreshMessages, .refreshLeads])
    | .error e =>
      (inflight, { inflight with sendError := some e },
        [.sendReply trimmed])

/-- The conversation poll view: the issue number of the applied response
and the displayed messages. -/
structure PollState where
  latestIssue : Nat
  messages : List ConversationMessage
  deriving DecidableEq, Repr

/-- Modelled from the spec: the stale-response guard of the conversation
message polling.  The polling itself is implemented by the external SWR
library — the repository only configures `useSWR` with a 5s
`refreshInterval`, so the apply-step is not present under `src/`.  Per the
spec, every issued request carries a monotonically increasing issue
number, and a resolved response is applied only when no response of a
newer issue has already been applied (ordering by issue time, not
completion time). -/
def applyPollResponse (st : PollState) (issue : Nat)
    (data : List ConversationMessage) : PollState :=
  if issue < st.latestIssue then st
  else { latestIssue := issue, messages := data }

/-! Concrete inputs used by scenario theorems and counterexamples. -/

/-- The scenario lead `p1`: `date_added` `"2024-01-01"` (instant
1704067200000), `crm_raw` `{property_type: 1, for_sale: true,
price_sale: 100000}`. -/
def p1 : Lead :=
  { property_id := "p1"
    date_added := .valid 1704067200000
    crm_raw :=
      { property_type := .vNum 1
        for_sale := .vBool true
        price_sale := .vNum 100000 } }

/-- The scenario filters `{propertyTypes: [1], transaction: {sale: true,
rent: false}, minBudget: 50000, maxBudget}`. -/
def budgetScenarioFilters (maxB : Int) : LeadFilters :=
  { propertyTypes := [1]
    transaction := { sale := true, rent := false }
    rooms := .all
    minBudget := some 50000
    maxBudget := some maxB }

/-- A lead whose `crm_raw.region_obj_id` is the finite number `0`. -/
def regionZeroLead : Lead :=
  { property_id := "r0"
    date_added := .valid 0
    crm_raw := { region_obj_id := .vNum 0 } }

/-- Filters selecting exactly region id `0`. -/
def regionZeroFilters : LeadFilters :=
  { DEFAULT_LEAD_FILTERS with regionId := some 0 }

/-- A `crm_raw` payload whose region id is the finite number `7`. -/
def regionSevenRaw : CrmRaw :=
  { region_obj_id := .vNum 7 }

/-- Filters selecting exactly region id `7`. -/
def regionSevenFilters : LeadFilters :=
  { DEFAULT_LEAD_FILTERS with regionId := some 7 }

/-- A lead whose `date_added` is a non-empty unparseable string. -/
def unparseableLead : Lead :=
  { property_id := "bad", date_added := .garbage }

/-- The bulk-send scenario state: three selected ids, in order. -/
def bulkScenarioState : DashState :=
  { selectedIds := ["a", "b", "c"], pendingIds := [], multiSelectMode := true }

/-- The bulk-send scenario outcome: exactly the second id fails. -/
def bulkScenarioOutcome : String → Bool := fun id => id != "b"

/-- The reply-send scenario panel state: a non-blank draft, a previous
inline error, one displayed message. -/
def panelScenarioState : PanelState :=
  { draft := "  hello  ", sendError := some "old failure"
    messages := [{ message := "hi", inbound := true }] }

/-- The poll scenario: an untouched conversation view. -/
def pollScenarioInit : PollState :=
  { latestIssue := 0, messages := [] }

/-- Payload of the earlier-issued poll A. -/
def pollPayloadA : List ConversationMessage := [{ message := "A" }]

/-- Payload of the later-issued poll B. -/
def pollPayloadB : List ConversationMessage := [{ message := "B" }]

/-- Reference formulation of the first-wins region facet: the label
recorded for id `rid` is the one computed from the first lead whose
numeric `region_obj_id` equals `rid` (its first textual candidate label,
else the synthesized placeholder). -/
def firstRegionLabel (leads : List Lead) (rid : Int) : Option String :=
  leads.findSome? fun l =>
    match toNumber l.crm_raw.region_obj_id with
    | some r => if r = rid then some (regionLabelOf l.crm_raw r) else none
    | none => none

/-- Reference formulation of the first-wins zone facet. -/
def firstZoneLabel (leads : List Lead) (zid : Int) : Option String :=
  leads.findSome? fun l =>
    match toNumber l.crm_raw.zone_id with
    | some z => if z = zid then some (zoneLabelOf l.crm_raw z) else none
    | none => none

/-- A lead with a numeric property type, a labeled region and an
unlabeled zone, for the facet-derivation witness. -/
def facetLead : Lead :=
  { property_id := "f1"
    date_added := .valid 0
    crm_raw :=
      { property_type := .vNum 2
        region_obj_id := .vNum 11
        region_name := .vStr "Cluj"
        zone_id := .vNum 3 } }

/-! Theorems. -/

/-- C1: with `DEFAULT_LEAD_FILTERS` (empty `propertyTypes`, both
transaction flags false, rooms `"all"`, no region/zone/budget/date bounds)
every clause of `applyLeadFilters` is inactive, so the returned list
equals the input list for every input collection. -/
theorem applyLeadFilters_default_keeps_all (leads : List Lead) :
    applyLeadFilters leads DEFAULT_LEAD_FILTERS = leads := by
  unfold applyLeadFilters
  split
  · rfl
  · exact List.filter_eq_self.mpr fun a _ => by
      simp [leadMatches, propertyTypePass, regionPass, zonePass, transactionPass,
        roomsPass, budgetPass, datePass, DEFAULT_LEAD_FILTERS]

/-- C10: for every lead list and every filter specification,
`applyLeadFilters` returns a subsequence of its input: every returned
lead occurs in the input, nothing is duplicated or synthesized, and the
relative order of survivors is the input order. -/
theorem applyLeadFilters_sublist (leads : List Lead) (f : LeadFilters) :
    (applyLeadFilters leads f).Sublist leads := by
  unfold applyLeadFilters
  split
  · exact List.Sublist.refl _
  · exact List.filter_sublist _

/-- C2: the budget clause of `applyLeadFilters`: a price is within range
iff it is present, at least `minBudget` (if set) and at most `maxBudget`
(if set); with only sale selected the sale price must be within range,
with only rent selected the rent price, and with both or neither selected
either price may qualify.  Concretely, the single lead `p1` passes the
scenario filters with `maxBudget` 150000 and is rejected with
`maxBudget` 90000. -/
theorem budget_clause_spec :
    (∀ minB maxB p, withinRange minB maxB p = true ↔
      ∃ v, p = some v ∧ (∀ m, minB = some m → m ≤ v) ∧
        (∀ m, maxB = some m → v ≤ m)) ∧
    (∀ f raw, f.minBudget.isSome ∨ f.maxBudget.isSome →
      budgetPass f raw =
        if f.transaction.sale && !f.transaction.rent then
          withinRange f.minBudget f.maxBudget (toNumber raw.price_sale)
        else if !f.transaction.sale && f.transaction.rent then
          withinRange f.minBudget f.maxBudget (toNumber raw.price_rent)
        else
          (withinRange f.minBudget f.maxBudget (toNumber raw.price_sale) ||
            withinRange f.minBudget f.maxBudget (toNumber raw.price_rent))) ∧
    applyLeadFilters [p1] (budgetScenarioFilters 150000) = [p1] ∧
    applyLeadFilters [p1] (budgetScenarioFilters 90000) = [] := by
  refine ⟨?_, ?_, by decide, by decide⟩
  · intro minB maxB p
    cases p with
    | none => simp [withinRange]
    | some v =>
      cases minB <;> cases maxB <;> simp [withinRange]
  · intro f raw h
    have hb : (f.minBudget.isSome || f.maxBudget.isSome) = true := by
      rcases h with h | h <;> simp [h]
    unfold budgetPass
    rw [if_pos hb]
    split
    · rfl
    · split
      · rfl
      · split <;> rfl

/-- C2 (witness): the budget-clause characterization instantiated at
concrete inputs. -/
theorem budget_clause_spec_witness :
    budgetPass (budgetScenarioFilters 150000) p1.crm_raw =
      withinRange (some 50000) (some 150000) (toNumber p1.crm_raw.price_sale) := by
  have h := budget_clause_spec.2.1 (budgetScenarioFilters 150000) p1.crm_raw
    (Or.inl (by decide))
  simpa using h

/-- Inserting with `orderedInsertB` permutes to consing. -/
theorem orderedInsertB_perm (le : α → α → Bool) (x : α) (l : List α) :
    List.Perm (orderedInsertB le x l) (x :: l) := by
  induction l with
  | nil => simp [orderedInsertB]
  | cons y ys ih =>
    unfold orderedInsertB
    split
    · exact List.Perm.refl _
    · exact (ih.cons y).trans (List.Perm.swap x y ys)

/-- `insertionSortB` permutes its input. -/
theorem insertionSortB_perm (le : α → α → Bool) (l : List α) :
    List.Perm (insertionSortB le l) l := by
  induction l with
  | nil => simp [insertionSortB]
  | cons x xs ih => exact (orderedInsertB_perm le x _).trans (ih.cons x)

/-- The bucket fold fails as soon as any member's day header throws. -/
theorem buildGroupsAux_none (todayMs : Int) (acc : List (DayLabel × List Lead))
    (xs : List Lead) (l : Lead) (hmem : l ∈ xs)
    (hbad : formatDayHeader todayMs l.date_added = none) :
    buildGroupsAux todayMs acc xs = none := by
  induction xs generalizing acc with
  | nil => cases hmem
  | cons y ys ih =>
    rcases List.mem_cons.mp hmem with rfl | hmem'
    · unfold buildGroupsAux
      rw [hbad]
    · unfold buildGroupsAux
      cases hy : formatDayHeader todayMs y.date_added with
      | none => rfl
      | some lab => exact ih _ hmem'

/-- C4: a collection containing a lead whose `date_added` is a non-empty
unparseable string makes `groupByDateAdded` fail outright: `parseISO`
returns a truthy `Invalid Date` instead of throwing, and date-fns
`format` then raises `RangeError("Invalid time value")` inside
`formatDayHeader`, so no leads at all are returned — the lead is neither
kept, nor sorted last, nor bucketed under `"Unknown date"`. -/
theorem groupByDateAdded_raises_on_unparseable (todayMs : Int)
    (leads : List Lead) (l : Lead) (hmem : l ∈ leads)
    (hbad : l.date_added = .garbage) :
    groupByDateAdded todayMs leads = none := by
  have hmem' : l ∈ sortLeadsByDateAdded leads :=
    ((insertionSortB_perm leadLe leads).mem_iff).mpr hmem
  have hnone : buildGroupsAux todayMs [] (sortLeadsByDateAdded leads) = none :=
    buildGroupsAux_none _ _ _ l hmem' (by rw [hbad]; rfl)
  simp [groupByDateAdded, hnone]

/-- C4 (witness): the failure at the concrete one-lead collection. -/
theorem groupByDateAdded_raises_on_unparseable_witness :
    groupByDateAdded 0 [unparseableLead] = none :=
  groupByDateAdded_raises_on_unparseable 0 [unparseableLead] unparseableLead
    (List.mem_singleton.mpr rfl) rfl

/-- C6 (counterexample): a lead whose `crm_raw.region_obj_id` is the
finite number `0` is rejected by filters selecting region id `0` — the
source's `!regionId` truthiness check treats the numeric id `0` as
absent — so "exact numeric match for every finite id value, including 0"
fails. -/
theorem region_zero_counterexample :
    toNumber regionZeroLead.crm_raw.region_obj_id = some 0 ∧
    regionZeroFilters.regionId = some 0 ∧
    applyLeadFilters [regionZeroLead] regionZeroFilters = [] :=
  ⟨rfl, rfl, by decide⟩

/-- C6 (amended): with `regionId` set, a lead passes the region clause of
`applyLeadFilters` iff its `crm_raw.region_obj_id` is numeric (converts
to a finite number; empty string, null and non-finite treated as absent),
nonzero, and exactly equal to `filters.regionId`; a region id of `0`
never passes an active region clause. -/
theorem regionPass_iff (f : LeadFilters) (raw : CrmRaw) (rid : Int)
    (h : f.regionId = some rid) :
    regionPass f raw = true ↔
      ∃ r, toNumber raw.region_obj_id = some r ∧ r ≠ 0 ∧ r = rid := by
  unfold regionPass
  rw [h]
  cases htn : toNumber raw.region_obj_id with
  | none => simp
  | some r =>
    by_cases hr : r = 0
    · subst hr
      simp
    · simp [hr]

/-- C6 (witness): the amended region-clause characterization at region
id `7`. -/
theorem regionPass_iff_witness :
    regionPass regionSevenFilters regionSevenRaw = true ↔
      ∃ r, toNumber regionSevenRaw.region_obj_id = some r ∧ r ≠ 0 ∧ r = 7 :=
  regionPass_iff regionSevenFilters regionSevenRaw 7 rfl

/-- Unfolding the bulk-send loop: the counters accumulate the exact
per-id outcome counts and the trace records one attempt per id, in
order. -/
theorem bulkFold_spec (ss : String → Bool) (ids : List String) (s f : Nat)
    (tr : List BulkEffect) :
    ids.foldl (bulkStep ss) (s, f, tr) =
      (s + ids.countP ss, f + ids.countP (fun id => !ss id),
        tr ++ ids.map BulkEffect.send) := by
  induction ids generalizing s f tr with
  | nil => simp
  | cons id rest ih =>
    simp only [List.foldl_cons, bulkStep, List.countP_cons, List.map_cons]
    cases h : ss id with
    | true =>
      rw [if_pos rfl]
      rw [ih]
      simp [h]
      omega
    | false =>
      rw [if_neg (by simp)]
      rw [ih]
      simp [h]
      omega

/-- C3: the bulk send over a non-empty ordered selection attempts every
selected id sequentially in order (one failure never stops the remaining
attempts), reports aggregate counts equal to the true per-id outcome
counts, leaves both the pending set and the selection empty regardless of
the outcome mix, and triggers exactly one leads refresh iff some attempt
succeeded (zero refreshes when every attempt failed). -/
theorem handleBulkSend_spec (st : DashState) (ss : String → Bool)
    (h : st.selectedIds ≠ []) :
    (handleBulkSend st ss).successCount = st.selectedIds.countP ss ∧
    (handleBulkSend st ss).failureCount =
      st.selectedIds.countP (fun id => !ss id) ∧
    (handleBulkSend st ss).effects =
      st.selectedIds.map BulkEffect.send ++
        (if 0 < st.selectedIds.countP ss then [BulkEffect.refresh] else []) ∧
    (handleBulkSend st ss).effects.count BulkEffect.refresh =
      (if 0 < st.selectedIds.countP ss then 1 else 0) ∧
    (handleBulkSend st ss).state.pendingIds = [] ∧
    (handleBulkSend st ss).state.selectedIds = [] ∧
    (handleBulkSend st ss).banner =
      some { isError := st.selectedIds.countP (fun id => !ss id) != 0
             sent := st.selectedIds.countP ss
             failed := st.selectedIds.countP (fun id => !ss id) } := by
  have hlen : ¬ st.selectedIds.length = 0 := by
    simpa [List.length_eq_zero] using h
  unfold handleBulkSend
  rw [if_neg hlen]
  simp only [bulkFold_spec, Nat.zero_add, List.nil_append]
  by_cases hp : 0 < st.selectedIds.countP ss <;>
    simp [hp, List.count_append, List.count_eq_zero, List.mem_map]

/-- C3 (witness): three ids `["a","b","c"]` with exactly the second
failing yield `successCount` 2, `failureCount` 1, empty pending and
selection sets, and exactly one refresh. -/
theorem handleBulkSend_spec_witness :
    (handleBulkSend bulkScenarioState bulkScenarioOutcome).successCount = 2 ∧
    (handleBulkSend bulkScenarioState bulkScenarioOutcome).failureCount = 1 ∧
    (handleBulkSend bulkScenarioState bulkScenarioOutcome).state.pendingIds = [] ∧
    (handleBulkSend bulkScenarioState bulkScenarioOutcome).state.selectedIds = [] ∧
    (handleBulkSend bulkScenarioState
        bulkScenarioOutcome).effects.count BulkEffect.refresh = 1 := by
  have h := handleBulkSend_spec bulkScenarioState bulkScenarioOutcome (by decide)
  refine ⟨h.1.trans (by decide), h.2.1.trans (by decide), h.2.2.2.2.1,
    h.2.2.2.2.2.1, h.2.2.2.1.trans (by decide)⟩

/-- C8: the conversation reply send is a no-op on a blank or
whitespace-only draft (no network effect, no state change); every
non-blank attempt first clears the previous send error (the in-flight
state); on success the draft is cleared and a message-stream refresh plus
a lead-list refresh are issued; on failure the draft and the displayed
message list are untouched and the inline error is set to the failure
message. -/
theorem handleSend_spec (st : PanelState) (result : Except String Unit) :
    (jsTrim st.draft = "" → handleSend st result = (st, st, [])) ∧
    (jsTrim st.draft ≠ "" →
      (handleSend st result).1.sendError = none ∧
      (∀ u, result = .ok u →
        handleSend st result =
          ({ st with sendError := none },
            { st with sendError := none, draft := "" },
            [.sendReply (jsTrim st.draft), .refreshMessages, .refreshLeads])) ∧
      (∀ e, result = .error e →
        handleSend st result =
          ({ st with sendError := none },
            { st with sendError := some e },
            [.sendReply (jsTrim st.draft)]))) := by
  constructor
  · intro hblank
    simp [handleSend, hblank]
  · intro hne
    refine ⟨?_, ?_, ?_⟩
    · cases result <;> simp [handleSend, hne]
    · rintro u rfl
      simp [handleSend, hne]
    · rintro e rfl
      simp [handleSend, hne]

/-- C8 (witness): a failed send on the concrete scenario state preserves
the draft and the message list, sets the new inline error and issues no
refresh. -/
theorem handleSend_spec_witness :
    handleSend panelScenarioState (.error "boom") =
      ({ panelScenarioState with sendError := none },
        { panelScenarioState with sendError := some "boom" },
        [.sendReply "hello"]) := by
  have h := ((handleSend_spec panelScenarioState (.error "boom")).2
    (by decide)).2.2 "boom" rfl
  rw [h]
  have htrim : jsTrim panelScenarioState.draft = "hello" := by decide
  rw [htrim]

/-- Floor-day monotonicity: a later instant is on a later-or-equal
calendar day. -/
theorem calendarDay_mono {t1 t2 : Int} (h : t1 ≤ t2) :
    calendarDay t1 ≤ calendarDay t2 :=
  Int.ediv_le_ediv (by decide) h

/-- A strictly older calendar day holds strictly older instants. -/
theorem lt_of_calendarDay_lt {t1 t2 : Int}
    (h : calendarDay t1 < calendarDay t2) : t1 < t2 := by
  by_contra hc
  push_neg at hc
  exact absurd (calendarDay_mono hc) (by omega)

/-- The day header only depends on the calendar day of the instant. -/
theorem dayLabel_congr (t : Int) {ms1 ms2 : Int}
    (h : calendarDay ms1 = calendarDay ms2) :
    dayLabel t ms1 = dayLabel t ms2 := by
  unfold dayLabel
  rw [h]

/-- Distinct calendar days get distinct day headers (for a fixed current
date, `"Today"`, `"Yesterday"`, `d MMM` and `d MMM yyyy` renderings never
collide across days). -/
theorem dayLabel_eq_day {t ms1 ms2 : Int}
    (h : dayLabel t ms1 = dayLabel t ms2) :
    calendarDay ms1 = calendarDay ms2 := by
  simp only [dayLabel] at h
  split_ifs at h <;> simp_all <;> omega

/-- The sort comparator on two dated leads is the descending-instant
test. -/
theorem leadLe_eq {a b : Lead}
    (ha : a.date_added.getTime = some (leadTime a))
    (hb : b.date_added.getTime = some (leadTime b)) :
    leadLe a b = decide (leadTime b ≤ leadTime a) := by
  unfold leadLe
  rw [ha, hb]

/-- Inserting a dated lead into a descending-sorted dated list keeps it
descending-sorted. -/
theorem orderedInsertB_sorted_leads (x : Lead) (l : List Lead)
    (hx : x.date_added.getTime = some (leadTime x))
    (hl : ∀ y ∈ l, y.date_added.getTime = some (leadTime y))
    (hs : l.Pairwise (fun a b => leadTime b ≤ leadTime a)) :
    (orderedInsertB leadLe x l).Pairwise
      (fun a b => leadTime b ≤ leadTime a) := by
  induction l with
  | nil => simp [orderedInsertB]
  | cons y ys ih =>
    have hy := hl y (List.mem_cons_self _ _)
    have hys : ∀ z ∈ ys, z.date_added.getTime = some (leadTime z) :=
      fun z hz => hl z (List.mem_cons_of_mem _ hz)
    rw [List.pairwise_cons] at hs
    unfold orderedInsertB
    by_cases hle : leadLe x y = true
    · rw [if_pos hle]
      have hxy : leadTime y ≤ leadTime x := by
        rw [leadLe_eq hx hy] at hle
        simpa using hle
      refine List.pairwise_cons.mpr ⟨?_, List.pairwise_cons.mpr ⟨hs.1, hs.2⟩⟩
      intro z hz
      rcases List.mem_cons.mp hz with rfl | hz'
      · exact hxy
      · exact le_trans (hs.1 z hz') hxy
    · rw [if_neg hle]
      have hyx : leadTime x ≤ leadTime y := by
        rw [leadLe_eq hx hy] at hle
        simp at hle
        omega
      refine List.pairwise_cons.mpr ⟨?_, ih hys hs.2⟩
      intro z hz
      have hz2 := (orderedInsertB_perm leadLe x ys).mem_iff.mp hz
      rcases List.mem_cons.mp hz2 with rfl | hz'
      · exact hyx
      · exact hs.1 z hz'

/-- The sort step of `groupByDateAdded` sorts a fully-dated collection
descending by instant. -/
theorem sortLeads_sorted (leads : List Lead)
    (h : ∀ l ∈ leads, l.date_added.getTime = some (leadTime l)) :
    (sortLeadsByDateAdded leads).Pairwise
      (fun a b => leadTime b ≤ leadTime a) := by
  unfold sortLeadsByDateAdded
  induction leads with
  | nil => simp [insertionSortB]
  | cons x xs ih =>
    unfold insertionSortB
    refine orderedInsertB_sorted_leads x _ (h x (List.mem_cons_self _ _)) ?_ ?_
    · intro y hy
      have hy2 : y ∈ xs := (insertionSortB_perm leadLe xs).mem_iff.mp hy
      exact h y (List.mem_cons_of_mem _ hy2)
    · exact ih fun l hl => h l (List.mem_cons_of_mem _ hl)

/-- When no accumulated bucket carries the label, the bucket fold step
appends a fresh bucket at the back. -/
theorem insertLead_of_not_mem (lab : DayLabel) (x : Lead)
    (acc : List (DayLabel × List Lead)) (h : ∀ g ∈ acc, g.1 ≠ lab) :
    insertLead lab x acc = acc ++ [(lab, [x])] := by
  induction acc with
  | nil => rfl
  | cons g rest ih =>
    obtain ⟨k, ys⟩ := g
    unfold insertLead
    rw [if_neg (h (k, ys) (List.mem_cons_self _ _))]
    rw [ih fun g hg => h g (List.mem_cons_of_mem _ hg)]
    rfl

/-- When exactly the trailing bucket carries the label, the bucket fold
step appends the lead to it. -/
theorem insertLead_append_last (lab : DayLabel) (x : Lead)
    (front : List (DayLabel × List Lead)) (ys : List Lead)
    (h : ∀ g ∈ front, g.1 ≠ lab) :
    insertLead lab x (front ++ [(lab, ys)]) = front ++ [(lab, ys ++ [x])] := by
  induction front with
  | nil => simp [insertLead]
  | cons g rest ih =>
    obtain ⟨k, zs⟩ := g
    have hstep : insertLead lab x ((k, zs) :: (rest ++ [(lab, ys)])) =
        (k, zs) :: insertLead lab x (rest ++ [(lab, ys)]) := by
      simp only [insertLead]
      rw [if_neg (h (k, zs) (List.mem_cons_self _ _))]
    rw [List.cons_append, hstep, ih fun g hg => h g (List.mem_cons_of_mem _ hg)]
    rfl

/-- Unwinding the bucket fold over a dated, descending-sorted input with
a well-formed accumulator: the fold succeeds, appends exactly the
processed leads to the flattened buckets, and preserves the bucket
invariants. -/
theorem buildGroupsAux_spec (todayMs : Int) (xs : List Lead) :
    ∀ acc : List (DayLabel × List Lead),
      (∀ l ∈ xs, l.date_added.getTime = some (leadTime l)) →
      xs.Pairwise (fun a b => leadTime b ≤ leadTime a) →
      AccInv todayMs acc →
      Cross xs acc →
      ∃ gs, buildGroupsAux todayMs acc xs = some gs ∧
        (gs.map Prod.snd).flatten = (acc.map Prod.snd).flatten ++ xs ∧
        AccInv todayMs gs := by
  induction xs with
  | nil =>
    intro acc _ _ hacc _
    exact ⟨acc, rfl, by simp, hacc⟩
  | cons x xs ih =>
    intro acc hv hs hacc hcross
    have hvx : x.date_added.getTime = some (leadTime x) :=
      hv x (List.mem_cons_self _ _)
    have hvxs : ∀ l ∈ xs, l.date_added.getTime = some (leadTime l) :=
      fun l hl => hv l (List.mem_cons_of_mem _ hl)
    rw [List.pairwise_cons] at hs
    have hlab : formatDayHeader todayMs x.date_added =
        some (dayLabel todayMs (leadTime x)) := by
      cases hd : x.date_added with
      | valid ms =>
        rw [hd] at hvx
        simp only [DateStr.getTime, Option.some.injEq] at hvx
        simp only [formatDayHeader, hvx]
      | emptyStr =>
        rw [hd] at hvx
        simp [DateStr.getTime] at hvx
      | garbage =>
        rw [hd] at hvx
        simp [DateStr.getTime] at hvx
    have hstep : buildGroupsAux todayMs acc (x :: xs) =
        buildGroupsAux todayMs
          (insertLead (dayLabel todayMs (leadTime x)) x acc) xs := by
      simp only [buildGroupsAux]
      rw [hlab]
    rcases List.eq_nil_or_concat acc with rfl | ⟨front, g, hacc_eq⟩
    · -- empty accumulator: open the first bucket
      have hinv0 : AccInv todayMs [(dayLabel todayMs (leadTime x), [x])] := by
        constructor
        · intro g hg
          rw [List.mem_singleton.mp hg]
          refine ⟨x, [], rfl, rfl, ?_, ?_, ?_⟩ <;>
            intro y hy <;> rw [List.mem_singleton.mp hy]
          · exact hvx
        · unfold GroupsDesc
          exact List.pairwise_singleton _ _
      have hcross0 : Cross xs [(dayLabel todayMs (leadTime x), [x])] := by
        intro z hz g hg y hy
        rw [List.mem_singleton.mp hg] at hy
        rw [List.mem_singleton.mp hy]
        exact hs.1 z hz
      obtain ⟨gs, hgs, hflat, hinv⟩ :=
        ih (insertLead (dayLabel todayMs (leadTime x)) x []) hvxs hs.2
          hinv0 hcross0
      refine ⟨gs, ?_, ?_, hinv⟩
      · rw [hstep]
        exact hgs
      · rw [hflat]
        simp [insertLead]
    · -- non-empty accumulator, trailing bucket g
      rw [List.concat_eq_append] at hacc_eq
      subst hacc_eq
      obtain ⟨glab, ys⟩ := g
      obtain ⟨f, rest, hys, hglab, hvys, hdays, hles⟩ :=
        hacc.1 (glab, ys) (by simp)
      simp only at hys hglab hvys hdays hles
      have hfmem : f ∈ ys := by
        rw [hys]
        exact List.mem_cons_self _ _
      have hxf : leadTime x ≤ leadTime f :=
        hcross x (List.mem_cons_self _ _) (glab, ys) (by simp) f hfmem
      have hdesc := hacc.2
      unfold GroupsDesc at hdesc
      rw [List.pairwise_append] at hdesc
      have hfrontOK : ∀ g' ∈ front, GroupOK todayMs g' := fun g' hg' =>
        hacc.1 g' (List.mem_append_left _ hg')
      have hfrontday : ∀ g' ∈ front, ∀ u ∈ g'.2,
          calendarDay (leadTime f) < calendarDay (leadTime u) := by
        intro g' hg' u hu
        exact hdesc.2.2 g' hg' (glab, ys) (List.mem_singleton.mpr rfl) u hu f hfmem
      by_cases hdx : calendarDay (leadTime x) = calendarDay (leadTime f)
      · -- same calendar day: append to the trailing bucket
        have hlabeq : dayLabel todayMs (leadTime x) = glab := by
          rw [hglab]
          exact dayLabel_congr todayMs hdx
        have hfrontne : ∀ g' ∈ front, g'.1 ≠ dayLabel todayMs (leadTime x) := by
          intro g' hg' hne
          obtain ⟨f', rest', hys', hglab', _, _, _⟩ := hfrontOK g' hg'
          have hf'mem : f' ∈ g'.2 := by
            rw [hys']
            exact List.mem_cons_self _ _
          have hlt := hfrontday g' hg' f' hf'mem
          have : calendarDay (leadTime f') = calendarDay (leadTime x) :=
            dayLabel_eq_day (by rw [← hglab', hne])
          omega
        have hins : insertLead (dayLabel todayMs (leadTime x)) x
            (front ++ [(glab, ys)]) = front ++ [(glab, ys ++ [x])] := by
          rw [← hlabeq]
          exact insertLead_append_last _ x front ys hfrontne
        have hinv1 : AccInv todayMs (front ++ [(glab, ys ++ [x])]) := by
          constructor
          · intro g' hg'
            rcases List.mem_append.mp hg' with hg' | hg'
            · exact hfrontOK g' hg'
            · rw [List.mem_singleton.mp hg']
              refine ⟨f, rest ++ [x], by rw [hys]; simp, hglab, ?_, ?_, ?_⟩ <;>
                intro y hy <;> rcases List.mem_append.mp hy with hy | hy
              · exact hvys y hy
              · rw [List.mem_singleton.mp hy]; exact hvx
              · exact hdays y hy
              · rw [List.mem_singleton.mp hy]; exact hdx
              · exact hles y hy
              · rw [List.mem_singleton.mp hy]; exact hxf
          · unfold GroupsDesc
            rw [List.pairwise_append]
            refine ⟨hdesc.1, List.pairwise_singleton _ _, ?_⟩
            intro a ha b hb u hu y hy
            rw [List.mem_singleton.mp hb] at hy
            simp only at hy
            rcases List.mem_append.mp hy with hy | hy
            · exact hdesc.2.2 a ha (glab, ys) (List.mem_singleton.mpr rfl) u hu y hy
            · rw [List.mem_singleton.mp hy]
              have := hfrontday a ha u hu
              omega
        have hcross1 : Cross xs (front ++ [(glab, ys ++ [x])]) := by
          intro z hz g' hg' y hy
          rcases List.mem_append.mp hg' with hg' | hg'
          · exact hcross z (List.mem_cons_of_mem _ hz) g'
              (List.mem_append_left _ hg') y hy
          · rw [List.mem_singleton.mp hg'] at hy
            simp only at hy
            rcases List.mem_append.mp hy with hy | hy
            · exact hcross z (List.mem_cons_of_mem _ hz) (glab, ys)
                (by simp) y hy
            · rw [List.mem_singleton.mp hy]
              exact hs.1 z hz
        obtain ⟨gs, hgs, hflat, hinv⟩ :=
          ih (front ++ [(glab, ys ++ [x])]) hvxs hs.2 hinv1 hcross1
        refine ⟨gs, ?_, ?_, hinv⟩
        · rw [hstep, hins]
          exact hgs
        · rw [hflat]
          simp [List.append_assoc]
      · -- older calendar day: open a fresh trailing bucket
        have hdlt : calendarDay (leadTime x) < calendarDay (leadTime f) := by
          have := calendarDay_mono hxf
          omega
        have haccne : ∀ g' ∈ front ++ [(glab, ys)],
            g'.1 ≠ dayLabel todayMs (leadTime x) := by
          intro g' hg' hne
          rcases List.mem_append.mp hg' with hg' | hg'
          · obtain ⟨f', rest', hys', hglab', _, _, _⟩ := hfrontOK g' hg'
            have hf'mem : f' ∈ g'.2 := by
              rw [hys']
              exact List.mem_cons_self _ _
            have hlt := hfrontday g' hg' f' hf'mem
            have : calendarDay (leadTime f') = calendarDay (leadTime x) :=
              dayLabel_eq_day (by rw [← hglab', hne])
            omega
          · rw [List.mem_singleton.mp hg'] at hne
            simp only at hne
            have : calendarDay (leadTime f) = calendarDay (leadTime x) :=
              dayLabel_eq_day (by rw [← hglab, hne])
            omega
        have hins := insertLead_of_not_mem (dayLabel todayMs (leadTime x)) x
          (front ++ [(glab, ys)]) haccne
        have hxday : ∀ g' ∈ front ++ [(glab, ys)], ∀ u ∈ g'.2,
            calendarDay (leadTime x) < calendarDay (leadTime u) := by
          intro g' hg' u hu
          rcases List.mem_append.mp hg' with hg' | hg'
          · have := hfrontday g' hg' u hu
            omega
          · rw [List.mem_singleton.mp hg'] at hu
            simp only at hu
            have := hdays u hu
            omega
        have hinv1 : AccInv todayMs
            ((front ++ [(glab, ys)]) ++ [(dayLabel todayMs (leadTime x), [x])]) := by
          constructor
          · intro g' hg'
            rcases List.mem_append.mp hg' with hg' | hg'
            · exact hacc.1 g' hg'
            · rw [List.mem_singleton.mp hg']
              refine ⟨x, [], rfl, rfl, ?_, ?_, ?_⟩ <;>
                intro y hy <;> rw [List.mem_singleton.mp hy]
              · exact hvx
          · unfold GroupsDesc
            rw [List.pairwise_append]
            refine ⟨hacc.2, List.pairwise_singleton _ _, ?_⟩
            intro a ha b hb u hu y hy
            rw [List.mem_singleton.mp hb] at hy
            simp only at hy
            rw [List.mem_singleton.mp hy]
            exact hxday a ha u hu
        have hcross1 : Cross xs
            ((front ++ [(glab, ys)]) ++ [(dayLabel todayMs (leadTime x), [x])]) := by
          intro z hz g' hg' y hy
          rcases List.mem_append.mp hg' with hg' | hg'
          · exact hcross z (List.mem_cons_of_mem _ hz) g' hg' y hy
          · rw [List.mem_singleton.mp hg'] at hy
            simp only at hy
            rw [List.mem_singleton.mp hy]
            exact hs.1 z hz
        obtain ⟨gs, hgs, hflat, hinv⟩ :=
          ih ((front ++ [(glab, ys)]) ++ [(dayLabel todayMs (leadTime x), [x])])
            hvxs hs.2 hinv1 hcross1
        refine ⟨gs, ?_, ?_, hinv⟩
        · rw [hstep, hins]
          exact hgs
        · rw [hflat]
          simp [List.append_assoc]

/-- C5: for a collection whose `date_added` values all parse,
`groupByDateAdded` succeeds; the underlying sort is a permutation of the
input in descending instant order; the concatenation of the buckets is
exactly that descending-sorted sequence; every bucket is non-empty, led
by its most recent member, and labeled with the calendar-relative day
header of that member; and buckets appear in strictly descending order
of recency — every member of an earlier bucket is strictly newer than
every member of a later one, so bucket order is strictly by descending
recency of each bucket's most recent (first) member. -/
theorem groupByDateAdded_spec (todayMs : Int) (leads : List Lead)
    (h : ∀ l ∈ leads, l.date_added.getTime = some (leadTime l)) :
    ∃ groups, groupByDateAdded todayMs leads = some groups ∧
      List.Perm (sortLeadsByDateAdded leads) leads ∧
      (sortLeadsByDateAdded leads).Pairwise
        (fun a b => leadTime b ≤ leadTime a) ∧
      (groups.map LeadGroup.leads).flatten = sortLeadsByDateAdded leads ∧
      (∀ g ∈ groups, ∃ first rest, g.leads = first :: rest ∧
        g.label = dayLabel todayMs (leadTime first) ∧
        ∀ y ∈ g.leads, leadTime y ≤ leadTime first) ∧
      groups.Pairwise (fun g1 g2 => ∀ a ∈ g1.leads, ∀ b ∈ g2.leads,
        leadTime b < leadTime a) := by
  have hperm : List.Perm (sortLeadsByDateAdded leads) leads :=
    insertionSortB_perm leadLe leads
  have hv : ∀ l ∈ sortLeadsByDateAdded leads,
      l.date_added.getTime = some (leadTime l) :=
    fun l hl => h l (hperm.mem_iff.mp hl)
  have hsorted := sortLeads_sorted leads h
  have hinv0 : AccInv todayMs [] :=
    ⟨fun g hg => absurd hg (List.not_mem_nil g), List.Pairwise.nil⟩
  have hcross0 : Cross (sortLeadsByDateAdded leads) [] :=
    fun x _ g hg => absurd hg (List.not_mem_nil g)
  obtain ⟨gs, hgs, hflat, hinv⟩ :=
    buildGroupsAux_spec todayMs (sortLeadsByDateAdded leads) [] hv hsorted
      hinv0 hcross0
  refine ⟨gs.map (fun e => { label := e.1, leads := e.2 }), ?_, hperm, hsorted,
    ?_, ?_, ?_⟩
  · simp [groupByDateAdded, hgs]
  · simp only [List.map_map]
    simpa using hflat
  · intro g hg
    obtain ⟨e, he, rfl⟩ := List.mem_map.mp hg
    obtain ⟨f, rest, h1, h2, _, _, h5⟩ := hinv.1 e he
    exact ⟨f, rest, h1, h2, h5⟩
  · exact List.Pairwise.map _
      (fun a b hab x hx y hy => lt_of_calendarDay_lt (hab x hx y hy)) hinv.2

/-- C5 (witness): the grouping contract at the concrete one-lead
collection `[p1]`. -/
theorem groupByDateAdded_spec_witness :
    ∃ groups, groupByDateAdded 0 [p1] = some groups ∧
      List.Perm (sortLeadsByDateAdded [p1]) [p1] ∧
      (sortLeadsByDateAdded [p1]).Pairwise
        (fun a b => leadTime b ≤ leadTime a) ∧
      (groups.map LeadGroup.leads).flatten = sortLeadsByDateAdded [p1] ∧
      (∀ g ∈ groups, ∃ first rest, g.leads = first :: rest ∧
        g.label = dayLabel 0 (leadTime first) ∧
        ∀ y ∈ g.leads, leadTime y ≤ leadTime first) ∧
      groups.Pairwise (fun g1 g2 => ∀ a ∈ g1.leads, ∀ b ∈ g2.leads,
        leadTime b < leadTime a) :=
  groupByDateAdded_spec 0 [p1] (by decide)

/-- C9 (spec-modelled): the stale-response guard of the conversation
polling keeps only the result of the most recently issued request that
has resolved: if poll A is issued before poll B (`iA < iB`), the
displayed messages equal B's payload whichever response arrives last —
a late-arriving A never overwrites B. -/
theorem applyPollResponse_stale_guard (st : PollState) (iA iB : Nat)
    (dataA dataB : List ConversationMessage)
    (hA : st.latestIssue ≤ iA) (hAB : iA < iB) :
    (applyPollResponse (applyPollResponse st iB dataB) iA dataA).messages = dataB ∧
    (applyPollResponse (applyPollResponse st iA dataA) iB dataB).messages = dataB := by
  have h1 : applyPollResponse st iB dataB =
      { latestIssue := iB, messages := dataB } := by
    unfold applyPollResponse
    rw [if_neg (by omega)]
  have h2 : applyPollResponse st iA dataA =
      { latestIssue := iA, messages := dataA } := by
    unfold applyPollResponse
    rw [if_neg (by omega)]
  constructor
  · rw [h1]
    simp [applyPollResponse, hAB]
  · rw [h2]
    have hnb : ¬ iB < iA := by omega
    simp [applyPollResponse, hnb]

/-- The facet scan's property-type component only depends on the lead's
`property_type`. -/
theorem facetStep_propertyTypeSet (st : FacetState) (l : Lead) :
    (facetStep st l).propertyTypeSet =
      match toNumber l.crm_raw.property_type with
      | some p => insertSet p st.propertyTypeSet
      | none => st.propertyTypeSet := by
  simp only [facetStep]
  cases toNumber l.crm_raw.property_type <;>
    cases toNumber l.crm_raw.region_obj_id <;>
    cases toNumber l.crm_raw.zone_id <;> rfl

/-- The facet scan's region component only depends on the lead's
`region_obj_id` and label candidates. -/
theorem facetStep_regionMap (st : FacetState) (l : Lead) :
    (facetStep st l).regionMap =
      match toNumber l.crm_raw.region_obj_id with
      | some r => insertMap r (regionLabelOf l.crm_raw r) st.regionMap
      | none => st.regionMap := by
  simp only [facetStep]
  cases toNumber l.crm_raw.property_type <;>
    cases toNumber l.crm_raw.region_obj_id <;>
    cases toNumber l.crm_raw.zone_id <;> rfl

/-- The facet scan's zone component only depends on the lead's `zone_id`
and label candidates. -/
theorem facetStep_zoneMap (st : FacetState) (l : Lead) :
    (facetStep st l).zoneMap =
      match toNumber l.crm_raw.zone_id with
      | some z => insertMap z (zoneLabelOf l.crm_raw z) st.zoneMap
      | none => st.zoneMap := by
  simp only [facetStep]
  cases toNumber l.crm_raw.property_type <;>
    cases toNumber l.crm_raw.region_obj_id <;>
    cases toNumber l.crm_raw.zone_id <;> rfl

/-- Membership in the modelled `Set.add`. -/
theorem mem_insertSet {p v : Int} {s : List Int} :
    p ∈ insertSet v s ↔ p ∈ s ∨ p = v := by
  by_cases h : s.contains v
  · have hv : v ∈ s := by simpa using h
    simp only [insertSet, if_pos h]
    constructor
    · exact Or.inl
    · rintro (hp | rfl)
      · exact hp
      · exact hv
  · have hv : v ∉ s := by simpa using h
    simp [insertSet, hv]

/-- Membership in the guarded `Map.set` step: an entry of the result is
either an old entry, or the new pair when its key was absent. -/
theorem mem_insertMap {e : Int × String} {k : Int} {lab : String}
    {m : List (Int × String)} :
    e ∈ insertMap k lab m ↔
      e ∈ m ∨ ((∀ g ∈ m, g.1 ≠ k) ∧ e = (k, lab)) := by
  by_cases h : ∃ g ∈ m, g.1 = k
  · have hb : m.any (fun g => g.1 = k) = true := by
      simpa [List.any_eq_true] using h
    simp only [insertMap, hb, if_pos]
    obtain ⟨g0, hg0, hk0⟩ := h
    constructor
    · exact Or.inl
    · rintro (hp | ⟨hnone, rfl⟩)
      · exact hp
      · exact absurd hk0 (hnone g0 hg0)
  · have hb : ¬ m.any (fun g => g.1 = k) = true := by
      simpa [List.any_eq_true] using h
    have hnone : ∀ g ∈ m, g.1 ≠ k := by
      intro g hg hk
      exact h ⟨g, hg, hk⟩
    simp only [insertMap, hb, if_neg, if_false, Bool.false_eq_true]
    simp only [List.mem_append, List.mem_singleton]
    constructor
    · rintro (hp | rfl)
      · exact Or.inl hp
      · exact Or.inr ⟨fun g hg => hnone g hg, rfl⟩
    · rintro (hp | ⟨_, rfl⟩)
      · exact Or.inl hp
      · exact Or.inr rfl

/-- Membership in the scanned property-type set: exactly the numeric
property types occurring in the collection, plus the accumulator's. -/
theorem propertyFold_mem (leads : List Lead) :
    ∀ (st : FacetState) (p : Int),
      p ∈ (leads.foldl facetStep st).propertyTypeSet ↔
        p ∈ st.propertyTypeSet ∨
          ∃ l ∈ leads, toNumber l.crm_raw.property_type = some p := by
  induction leads with
  | nil =>
    intro st p
    simp
  | cons l ls ih =>
    intro st p
    rw [List.foldl_cons, ih]
    cases hp : toNumber l.crm_raw.property_type with
    | none =>
      have hstep : (facetStep st l).propertyTypeSet = st.propertyTypeSet := by
        rw [facetStep_propertyTypeSet, hp]
      rw [hstep]
      simp only [List.mem_cons]
      constructor
      · rintro (hm | ⟨l2, hl2, he⟩)
        · exact Or.inl hm
        · exact Or.inr ⟨l2, Or.inr hl2, he⟩
      · rintro (hm | ⟨l2, rfl | hl2, he⟩)
        · exact Or.inl hm
        · rw [hp] at he
          cases he
        · exact Or.inr ⟨l2, hl2, he⟩
    | some v =>
      have hstep : (facetStep st l).propertyTypeSet =
          insertSet v st.propertyTypeSet := by
        rw [facetStep_propertyTypeSet, hp]
      rw [hstep, mem_insertSet]
      simp only [List.mem_cons]
      constructor
      · rintro ((hm | rfl) | ⟨l2, hl2, he⟩)
        · exact Or.inl hm
        · exact Or.inr ⟨l, Or.inl rfl, hp⟩
        · exact Or.inr ⟨l2, Or.inr hl2, he⟩
      · rintro (hm | ⟨l2, rfl | hl2, he⟩)
        · exact Or.inl (Or.inl hm)
        · rw [hp] at he
          cases he
          exact Or.inl (Or.inr rfl)
        · exact Or.inr ⟨l2, hl2, he⟩

/-- Membership in the scanned region map: an entry is there exactly when
the accumulator held it, or its key is new to the accumulator and the
first lead carrying that numeric region id contributed its label. -/
theorem regionFold_mem (leads : List Lead) :
    ∀ (st : FacetState) (v : Int) (lab : String),
      (v, lab) ∈ (leads.foldl facetStep st).regionMap ↔
        (v, lab) ∈ st.regionMap ∨
          ((∀ g ∈ st.regionMap, g.1 ≠ v) ∧
            firstRegionLabel leads v = some lab) := by
  induction leads with
  | nil =>
    intro st v lab
    simp [firstRegionLabel]
  | cons l ls ih =>
    intro st v lab
    rw [List.foldl_cons, ih]
    cases hr : toNumber l.crm_raw.region_obj_id with
    | none =>
      have hstep : (facetStep st l).regionMap = st.regionMap := by
        rw [facetStep_regionMap, hr]
      have hfrl : firstRegionLabel (l :: ls) v = firstRegionLabel ls v := by
        simp [firstRegionLabel, List.findSome?_cons, hr]
      rw [hstep, hfrl]
    | some r =>
      have hstep : (facetStep st l).regionMap =
          insertMap r (regionLabelOf l.crm_raw r) st.regionMap := by
        rw [facetStep_regionMap, hr]
      rw [hstep]
      by_cases hrv : r = v
      · subst hrv
        have hfrl : firstRegionLabel (l :: ls) r =
            some (regionLabelOf l.crm_raw r) := by
          simp [firstRegionLabel, List.findSome?_cons, hr]
        rw [hfrl]
        by_cases hany : ∃ g ∈ st.regionMap, g.1 = r
        · obtain ⟨g0, hg0, hk0⟩ := hany
          have hins : insertMap r (regionLabelOf l.crm_raw r) st.regionMap =
              st.regionMap := by
            unfold insertMap
            rw [if_pos (show (st.regionMap.any fun g => decide (g.1 = r)) = true by
              simp only [List.any_eq_true, decide_eq_true_eq]
              exact ⟨g0, hg0, hk0⟩)]
          rw [hins]
          constructor
          · rintro (hm | ⟨hnone, _⟩)
            · exact Or.inl hm
            · exact absurd hk0 (hnone g0 hg0)
          · rintro (hm | ⟨hnone, _⟩)
            · exact Or.inl hm
            · exact absurd hk0 (hnone g0 hg0)
        · have hnone : ∀ g ∈ st.regionMap, g.1 ≠ r :=
            fun g hg hk => hany ⟨g, hg, hk⟩
          constructor
          · rintro (hm | ⟨hnone2, _⟩)
            · rcases mem_insertMap.mp hm with hm2 | ⟨_, heq⟩
              · exact Or.inl hm2
              · have hlab : lab = regionLabelOf l.crm_raw r := by
                  simpa using heq
                subst hlab
                exact Or.inr ⟨hnone, rfl⟩
            · exact absurd rfl (hnone2 (r, regionLabelOf l.crm_raw r)
                (mem_insertMap.mpr (Or.inr ⟨hnone, rfl⟩)))
          · rintro (hm | ⟨_, hfirst⟩)
            · exact Or.inl (mem_insertMap.mpr (Or.inl hm))
            · have hlab : regionLabelOf l.crm_raw r = lab := by
                simpa using hfirst
              exact Or.inl (mem_insertMap.mpr (Or.inr ⟨hnone, by rw [hlab]⟩))
      · have hfrl : firstRegionLabel (l :: ls) v = firstRegionLabel ls v := by
          simp [firstRegionLabel, List.findSome?_cons, hr, hrv]
        rw [hfrl]
        constructor
        · rintro (hm | ⟨hnone, hfirst⟩)
          · rcases mem_insertMap.mp hm with hm2 | ⟨_, heq⟩
            · exact Or.inl hm2
            · have hvr : v = r := by
                simpa using congrArg Prod.fst heq
              exact absurd hvr.symm hrv
          · refine Or.inr ⟨?_, hfirst⟩
            intro g hg
            exact hnone g (mem_insertMap.mpr (Or.inl hg))
        · rintro (hm | ⟨hnone, hfirst⟩)
          · exact Or.inl (mem_insertMap.mpr (Or.inl hm))
          · refine Or.inr ⟨?_, hfirst⟩
            intro g hg
            rcases mem_insertMap.mp hg with hg2 | ⟨_, heq⟩
            · exact hnone g hg2
            · subst heq
              exact fun hk => hrv hk

/-- Membership in the scanned zone map: an entry is there exactly when
the accumulator held it, or its key is new to the accumulator and the
first lead carrying that numeric zone id contributed its label. -/
theorem zoneFold_mem (leads : List Lead) :
    ∀ (st : FacetState) (v : Int) (lab : String),
      (v, lab) ∈ (leads.foldl facetStep st).zoneMap ↔
        (v, lab) ∈ st.zoneMap ∨
          ((∀ g ∈ st.zoneMap, g.1 ≠ v) ∧
            firstZoneLabel leads v = some lab) := by
  induction leads with
  | nil =>
    intro st v lab
    simp [firstZoneLabel]
  | cons l ls ih =>
    intro st v lab
    rw [List.foldl_cons, ih]
    cases hr : toNumber l.crm_raw.zone_id with
    | none =>
      have hstep : (facetStep st l).zoneMap = st.zoneMap := by
        rw [facetStep_zoneMap, hr]
      have hfrl : firstZoneLabel (l :: ls) v = firstZoneLabel ls v := by
        simp [firstZoneLabel, List.findSome?_cons, hr]
      rw [hstep, hfrl]
    | some r =>
      have hstep : (facetStep st l).zoneMap =
          insertMap r (zoneLabelOf l.crm_raw r) st.zoneMap := by
        rw [facetStep_zoneMap, hr]
      rw [hstep]
      by_cases hrv : r = v
      · subst hrv
        have hfrl : firstZoneLabel (l :: ls) r =
            some (zoneLabelOf l.crm_raw r) := by
          simp [firstZoneLabel, List.findSome?_cons, hr]
        rw [hfrl]
        by_cases hany : ∃ g ∈ st.zoneMap, g.1 = r
        · obtain ⟨g0, hg0, hk0⟩ := hany
          have hins : insertMap r (zoneLabelOf l.crm_raw r) st.zoneMap =
              st.zoneMap := by
            unfold insertMap
            rw [if_pos (show (st.zoneMap.any fun g => decide (g.1 = r)) = true by
              simp only [List.any_eq_true, decide_eq_true_eq]
              exact ⟨g0, hg0, hk0⟩)]
          rw [hins]
          constructor
          · rintro (hm | ⟨hnone, _⟩)
            · exact Or.inl hm
            · exact absurd hk0 (hnone g0 hg0)
          · rintro (hm | ⟨hnone, _⟩)
            · exact Or.inl hm
            · exact absurd hk0 (hnone g0 hg0)
        · have hnone : ∀ g ∈ st.zoneMap, g.1 ≠ r :=
            fun g hg hk => hany ⟨g, hg, hk⟩
          constructor
          · rintro (hm | ⟨hnone2, _⟩)
            · rcases mem_insertMap.mp hm with hm2 | ⟨_, heq⟩
              · exact Or.inl hm2
              · have hlab : lab = zoneLabelOf l.crm_raw r := by
                  simpa using heq
                subst hlab
                exact Or.inr ⟨hnone, rfl⟩
            · exact absurd rfl (hnone2 (r, zoneLabelOf l.crm_raw r)
                (mem_insertMap.mpr (Or.inr ⟨hnone, rfl⟩)))
          · rintro (hm | ⟨_, hfirst⟩)
            · exact Or.inl (mem_insertMap.mpr (Or.inl hm))
            · have hlab : zoneLabelOf l.crm_raw r = lab := by
                simpa using hfirst
              exact Or.inl (mem_insertMap.mpr (Or.inr ⟨hnone, by rw [hlab]⟩))
      · have hfrl : firstZoneLabel (l :: ls) v = firstZoneLabel ls v := by
          simp [firstZoneLabel, List.findSome?_cons, hr, hrv]
        rw [hfrl]
        constructor
        · rintro (hm | ⟨hnone, hfirst⟩)
          · rcases mem_insertMap.mp hm with hm2 | ⟨_, heq⟩
            · exact Or.inl hm2
            · have hvr : v = r := by
                simpa using congrArg Prod.fst heq
              exact absurd hvr.symm hrv
          · refine Or.inr ⟨?_, hfirst⟩
            intro g hg
            exact hnone g (mem_insertMap.mpr (Or.inl hg))
        · rintro (hm | ⟨hnone, hfirst⟩)
          · exact Or.inl (mem_insertMap.mpr (Or.inl hm))
          · refine Or.inr ⟨?_, hfirst⟩
            intro g hg
            rcases mem_insertMap.mp hg with hg2 | ⟨_, heq⟩
            · exact hnone g hg2
            · subst heq
              exact fun hk => hrv hk

/-- The modelled collation respects the case-insensitive order. -/
theorem labelLe_le {s t : String} (h : labelLe s t = true) :
    s.toLower ≤ t.toLower := by
  unfold labelLe at h
  split_ifs at h with he
  · exact le_of_eq he
  · exact of_decide_eq_true h

/-- The modelled collation is total. -/
theorem labelLe_total (a b : String) :
    labelLe a b = true ∨ labelLe b a = true := by
  unfold labelLe
  by_cases h : a.toLower = b.toLower
  · rw [if_pos h, if_pos h.symm]
    rcases le_total b a with hle | hle
    · exact Or.inl (decide_eq_true hle)
    · exact Or.inr (decide_eq_true hle)
  · rw [if_neg h, if_neg fun hh => h hh.symm]
    rcases le_total a.toLower b.toLower with hle | hle
    · exact Or.inl (decide_eq_true hle)
    · exact Or.inr (decide_eq_true hle)

/-- The modelled collation is transitive. -/
theorem labelLe_trans (a b c : String) (h1 : labelLe a b = true)
    (h2 : labelLe b c = true) : labelLe a c = true := by
  unfold labelLe at h1 h2 ⊢
  by_cases hab : a.toLower = b.toLower <;> by_cases hbc : b.toLower = c.toLower
  · rw [if_pos hab] at h1
    rw [if_pos hbc] at h2
    rw [if_pos (hab.trans hbc)]
    exact decide_eq_true (le_trans (of_decide_eq_true h2) (of_decide_eq_true h1))
  · rw [if_pos hab] at h1
    rw [if_neg hbc] at h2
    rw [if_neg fun hh => hbc (hab.symm.trans hh)]
    exact decide_eq_true ((le_of_eq hab).trans (of_decide_eq_true h2))
  · rw [if_neg hab] at h1
    rw [if_pos hbc] at h2
    rw [if_neg fun hh => hab (hh.trans hbc.symm)]
    exact decide_eq_true ((of_decide_eq_true h1).trans (le_of_eq hbc))
  · rw [if_neg hab] at h1
    rw [if_neg hbc] at h2
    have h3 := of_decide_eq_true h1
    have h4 := of_decide_eq_true h2
    have hac : ¬ a.toLower = c.toLower := by
      intro hh
      rw [← hh] at h4
      exact hab (le_antisymm h3 h4)
    rw [if_neg hac]
    exact decide_eq_true (h3.trans h4)

/-- Stable insertion keeps a pairwise-`le` list pairwise, for a total and
transitive `le`. -/
theorem orderedInsertB_pairwise (le : α → α → Bool)
    (htot : ∀ a b, le a b = true ∨ le b a = true)
    (htrans : ∀ a b c, le a b = true → le b c = true → le a c = true)
    (x : α) (l : List α) (hs : l.Pairwise (fun a b => le a b = true)) :
    (orderedInsertB le x l).Pairwise (fun a b => le a b = true) := by
  induction l with
  | nil => simp [orderedInsertB]
  | cons y ys ih =>
    rw [List.pairwise_cons] at hs
    unfold orderedInsertB
    by_cases hle : le x y = true
    · rw [if_pos hle]
      refine List.pairwise_cons.mpr ⟨?_, List.pairwise_cons.mpr hs⟩
      intro z hz
      rcases List.mem_cons.mp hz with rfl | hz2
      · exact hle
      · exact htrans x y z hle (hs.1 z hz2)
    · rw [if_neg hle]
      have hyx : le y x = true := (htot x y).resolve_left hle
      refine List.pairwise_cons.mpr ⟨?_, ih hs.2⟩
      intro z hz
      rcases List.mem_cons.mp
          ((orderedInsertB_perm le x ys).mem_iff.mp hz) with rfl | hz2
      · exact hyx
      · exact hs.1 z hz2

/-- `insertionSortB` sorts, for a total and transitive `le`. -/
theorem insertionSortB_pairwise (le : α → α → Bool)
    (htot : ∀ a b, le a b = true ∨ le b a = true)
    (htrans : ∀ a b c, le a b = true → le b c = true → le a c = true)
    (l : List α) :
    (insertionSortB le l).Pairwise (fun a b => le a b = true) := by
  induction l with
  | nil => simp [insertionSortB]
  | cons x xs ih => exact orderedInsertB_pairwise le htot htrans x _ ih

/-- Sorting the option entries changes no memberships. -/
theorem mem_mapToOptions {v : Int} {lab : String} {m : List (Int × String)} :
    (⟨v, lab⟩ : OptionItem) ∈ mapToOptions m ↔ (v, lab) ∈ m := by
  unfold mapToOptions
  rw [List.mem_map]
  constructor
  · rintro ⟨e, he, heq⟩
    have he2 : e = (v, lab) := by
      obtain ⟨e1, e2⟩ := e
      simpa [OptionItem.mk.injEq, Prod.ext_iff] using heq
    subst he2
    exact (insertionSortB_perm _ m).mem_iff.mp he
  · intro hm
    exact ⟨(v, lab), (insertionSortB_perm _ m).mem_iff.mpr hm, rfl⟩

/-- The sorted facet output is case-insensitively ascending by label. -/
theorem mapToOptions_sorted (m : List (Int × String)) :
    (mapToOptions m).Pairwise
      (fun a b => a.label.toLower ≤ b.label.toLower) := by
  unfold mapToOptions
  refine List.Pairwise.map _ (fun a b hab => ?_)
    (insertionSortB_pairwise (fun a b => labelLe a.2 b.2)
      (fun a b => labelLe_total a.2 b.2)
      (fun a b c => labelLe_trans a.2 b.2 c.2) m)
  exact labelLe_le hab

/-- C7: the `deriveFilterOptions` contract: the property-type facet is
the full static catalog when no lead carries a numeric
`crm_raw.property_type`, and otherwise exactly the catalog entries whose
value occurs, in the catalog's canonical order (a filter of the
canonical catalog); a region/zone entry is present exactly when its id
occurs numerically and its label is the one computed from the first lead
carrying that id — first label wins, falling back to the synthesized
`"Județ #id"` / `"Zonă #id"` placeholder when that lead has no textual
label candidate (see `regionLabelOf` / `zoneLabelOf` inside
`firstRegionLabel` / `firstZoneLabel`); and both outputs are sorted by
label, case-insensitive ascending. -/
theorem deriveFilterOptions_spec (leads : List Lead) :
    ((∀ l ∈ leads, toNumber l.crm_raw.property_type = none) →
      (deriveFilterOptions leads).propertyTypes = PROPERTY_TYPE_OPTIONS) ∧
    ((∃ l ∈ leads, toNumber l.crm_raw.property_type ≠ none) →
      (deriveFilterOptions leads).propertyTypes =
        PROPERTY_TYPE_OPTIONS.filter fun o =>
          leads.any fun l =>
            decide (toNumber l.crm_raw.property_type = some o.value)) ∧
    (∀ v lab, (⟨v, lab⟩ : OptionItem) ∈ (deriveFilterOptions leads).regions ↔
      firstRegionLabel leads v = some lab) ∧
    (∀ v lab, (⟨v, lab⟩ : OptionItem) ∈ (deriveFilterOptions leads).zones ↔
      firstZoneLabel leads v = some lab) ∧
    (deriveFilterOptions leads).regions.Pairwise
      (fun a b => a.label.toLower ≤ b.label.toLower) ∧
    (deriveFilterOptions leads).zones.Pairwise
      (fun a b => a.label.toLower ≤ b.label.toLower) := by
  have hset : ∀ p, p ∈ (facetScan leads).propertyTypeSet ↔
      ∃ l ∈ leads, toNumber l.crm_raw.property_type = some p := by
    intro p
    simpa [facetScan] using propertyFold_mem leads
      { propertyTypeSet := [], regionMap := [], zoneMap := [] } p
  have hregion : ∀ v lab, (v, lab) ∈ (facetScan leads).regionMap ↔
      firstRegionLabel leads v = some lab := by
    intro v lab
    simpa [facetScan] using regionFold_mem leads
      { propertyTypeSet := [], regionMap := [], zoneMap := [] } v lab
  have hzone : ∀ v lab, (v, lab) ∈ (facetScan leads).zoneMap ↔
      firstZoneLabel leads v = some lab := by
    intro v lab
    simpa [facetScan] using zoneFold_mem leads
      { propertyTypeSet := [], regionMap := [], zoneMap := [] } v lab
  have hreg_eq : (deriveFilterOptions leads).regions =
      mapToOptions (facetScan leads).regionMap := by
    simp [deriveFilterOptions]
  have hzone_eq : (deriveFilterOptions leads).zones =
      mapToOptions (facetScan leads).zoneMap := by
    simp [deriveFilterOptions]
  refine ⟨?_, ?_, ?_, ?_, ?_, ?_⟩
  · intro hall
    have hempty : (facetScan leads).propertyTypeSet = [] := by
      rw [List.eq_nil_iff_forall_not_mem]
      intro p hp
      obtain ⟨l, hl, he⟩ := (hset p).mp hp
      rw [hall l hl] at he
      cases he
    simp [deriveFilterOptions, hempty]
  · rintro ⟨l, hl, he⟩
    cases hv : toNumber l.crm_raw.property_type with
    | none => exact absurd hv he
    | some p0 =>
      have hpmem : p0 ∈ (facetScan leads).propertyTypeSet :=
        (hset p0).mpr ⟨l, hl, hv⟩
      have hne : ¬ (facetScan leads).propertyTypeSet.length = 0 := by
        rw [List.length_eq_zero]
        intro hnil
        rw [hnil] at hpmem
        cases hpmem
      have hbranch : (deriveFilterOptions leads).propertyTypes =
          PROPERTY_TYPE_OPTIONS.filter (fun o =>
            (facetScan leads).propertyTypeSet.contains o.value) := by
        simp only [deriveFilterOptions]
        rw [if_neg hne]
      rw [hbranch]
      refine List.filter_congr ?_
      intro o _
      by_cases hc : o.value ∈ (facetScan leads).propertyTypeSet
      · have h1 : (facetScan leads).propertyTypeSet.contains o.value = true := by
          simpa using hc
        have h2 : (leads.any fun l2 =>
            decide (toNumber l2.crm_raw.property_type = some o.value)) = true := by
          simp only [List.any_eq_true, decide_eq_true_eq]
          exact (hset o.value).mp hc
        rw [h1, h2]
      · have h1 : (facetScan leads).propertyTypeSet.contains o.value = false := by
          simpa using hc
        have h2 : (leads.any fun l2 =>
            decide (toNumber l2.crm_raw.property_type = some o.value)) = false := by
          rw [Bool.eq_false_iff]
          intro hcontra
          rw [List.any_eq_true] at hcontra
          obtain ⟨l2, hl2, he2⟩ := hcontra
          exact hc ((hset o.value).mpr ⟨l2, hl2, of_decide_eq_true he2⟩)
        rw [h1, h2]
  · intro v lab
    rw [hreg_eq, mem_mapToOptions, hregion]
  · intro v lab
    rw [hzone_eq, mem_mapToOptions, hzone]
  · rw [hreg_eq]
    exact mapToOptions_sorted _
  · rw [hzone_eq]
    exact mapToOptions_sorted _

/-- C7 (witness): derivation at the one-lead collection `[facetLead]` —
the catalog is filtered to the occurring property type, the region facet
carries the textual label and the zone facet the synthesized
placeholder. -/
theorem deriveFilterOptions_spec_witness :
    ((deriveFilterOptions [facetLead]).propertyTypes =
      PROPERTY_TYPE_OPTIONS.filter fun o =>
        [facetLead].any fun l =>
          decide (toNumber l.crm_raw.property_type = some o.value)) ∧
    ((⟨11, "Cluj"⟩ : OptionItem) ∈ (deriveFilterOptions [facetLead]).regions ↔
      firstRegionLabel [facetLead] 11 = some "Cluj") ∧
    ((⟨3, "Zonă #3"⟩ : OptionItem) ∈ (deriveFilterOptions [facetLead]).zones ↔
      firstZoneLabel [facetLead] 3 = some "Zonă #3") := by
  have h := deriveFilterOptions_spec [facetLead]
  exact ⟨h.2.1 ⟨facetLead, by simp, by decide⟩,
    h.2.2.1 11 "Cluj", h.2.2.2.1 3 "Zonă #3"⟩

/-- C9 (witness): the guard at concrete issue numbers 1 and 2 with
distinct payloads, for both arrival orders. -/
theorem applyPollResponse_stale_guard_witness :
    (applyPollResponse (applyPollResponse pollScenarioInit 2 pollPayloadB)
        1 pollPayloadA).messages = pollPayloadB ∧
    (applyPollResponse (applyPollResponse pollScenarioInit 1 pollPayloadA)
        2 pollPayloadB).messages = pollPayloadB :=
  applyPollResponse_stale_guard pollScenarioInit 1 2 pollPayloadA pollPayloadB
    (by decide) (by decide)

end CrmBot
